import Mathlib

/-!
Shallow embedding of the replicated-log service: a Master node
(`src/master/master.py`) that assigns sequence ids and replicates messages,
and Secondary nodes (`src/secondary/secondary.py`) that store replicated
messages, deduplicating by id and keeping the log sorted by id.
-/

/-- A replicated message `{id, text}`.  `text` is `none` when the JSON body
had no `text` field (`data.get("text")` returns `None`). -/
structure Msg where
  id : Nat
  text : Option String
  deriving DecidableEq, Repr

/-- Ordering of messages by id, the sort key used by both nodes
(`messages.sort(key=lambda m: m["id"])`). -/
def msgLe (a b : Msg) : Prop := a.id ≤ b.id

instance : DecidableRel msgLe := fun a b => Nat.decLe a.id b.id

instance : IsTotal Msg msgLe := ⟨fun a b => Nat.le_total a.id b.id⟩

instance : IsTrans Msg msgLe := ⟨fun _ _ _ => Nat.le_trans⟩

/-- The `list.sort(key=lambda m: m["id"])` of the Python code: a stable
sort by id (insertion sort is stable, like Python's sort). -/
def sortById (l : List Msg) : List Msg := List.insertionSort msgLe l

/-- A log whose messages are strictly increasing by id: sorted with no two
messages sharing an id. -/
def StrictById (l : List Msg) : Prop := l.Pairwise fun a b => a.id < b.id

namespace Secondary

/-- Response of the `/replicate` handler: HTTP status code, the `status`
field of the JSON body, and the echoed message. -/
structure ReplicateResult where
  statusCode : Nat
  body_status : String
  msg : Msg
  deriving DecidableEq

/-- The `POST /replicate` handler of `src/secondary/secondary.py`: dedup by
id, append and sort when new, and always answer
`200 {status: "replicated", msg}`.  (The `REPLICA_DELAY` sleep touches no
state and is omitted.) -/
def replicate (messages : List Msg) (msg : Msg) : List Msg × ReplicateResult :=
  let is_duplicate := messages.any fun m => m.id == msg.id
  let messages' := if is_duplicate then messages else sortById (messages ++ [msg])
  (messages', ⟨200, "replicated", msg⟩)

/-- State of a Secondary after a sequence of `/replicate` calls starting
from the state `st`. -/
def runFrom : List Msg → List Msg → List Msg
  | st, [] => st
  | st, m :: ms => runFrom (replicate st m).1 ms

/-- State of a Secondary after a sequence of `/replicate` calls starting
from the initial empty log. -/
def run (inputs : List Msg) : List Msg := runFrom [] inputs

/-- The `GET /messages` handler: an id-sorted snapshot of the log. -/
def get_messages (messages : List Msg) : List Msg := sortById messages

/-- Status code prescribed by the spec for `/replicate`, written from the
spec's words for comparison with the source handler (which has no
fault-injection code): HTTP 500 when `ERROR_RATE > 0` and a uniform draw
falls below it, otherwise HTTP 200. -/
def replicateSpecStatus (error_rate draw : ℚ) : Nat :=
  if 0 < error_rate ∧ draw < error_rate then 500 else 200

end Secondary

namespace Master

/-- The statically configured secondary base URLs (`SECONDARIES`). -/
def SECONDARIES : List String := ["http://secondary1:5000", "http://secondary2:5000"]

/-- `total_replicas = len(SECONDARIES) + 1`: the master plus secondaries. -/
def total_replicas : ℤ := SECONDARIES.length + 1

/-- Effective write concern: `total_replicas` when the request has no `w`
field, otherwise `max(1, min(w, total_replicas))`. -/
def effective_w : Option ℤ → ℤ
  | none => total_replicas
  | some requested_w => max 1 (min requested_w total_replicas)

/-- Master node state: the local message log and the id counter `next_id`. -/
structure MasterState where
  messages : List Msg
  next_id : Nat
  deriving DecidableEq

/-- Initial Master state: empty log, `next_id = 1`. -/
def initState : MasterState := ⟨[], 1⟩

/-- The ACK-collection loop of `post_message`: dequeue ack futures while
more positive ACKs are required; a future whose `wait(0)` is `False` is
dequeued but not counted; the loop stops when the required count reaches
zero or the events are exhausted (timeout / empty queue).  Returns the
number of positive ACKs counted. -/
def countAcks : Nat → List Bool → Nat
  | 0, _ => 0
  | _ + 1, [] => 0
  | required + 1, ack :: rest =>
    if ack then 1 + countAcks required rest else countAcks (required + 1) rest

/-- Response of the `POST /message` handler. -/
structure PostResult where
  statusCode : Nat
  acks : Nat
  msg : Msg
  deriving DecidableEq

/-- The `POST /message` handler of `src/master/master.py`: compute the
effective write concern, mint `id := next_id` and increment the counter,
dedup-append-sort into the local log, collect ACKs (`ackEvents` lists the
`wait(0)` results of the futures dequeued before the wait ended), and
answer `200` when `ack_count ≥ ack_target`, else `202`. -/
def post_message (st : MasterState) (text : Option String) (requested_w : Option ℤ)
    (ackEvents : List Bool) : MasterState × PostResult :=
  let w := effective_w requested_w
  let msg : Msg := ⟨st.next_id, text⟩
  let is_duplicate := st.messages.any fun m => m.id == msg.id
  let messages' := if is_duplicate then st.messages else sortById (st.messages ++ [msg])
  let ack_target := w.toNat
  let ack_count := if 1 < ack_target then 1 + countAcks (ack_target - 1) ackEvents else 1
  let statusCode := if ack_target ≤ ack_count then 200 else 202
  (⟨messages', st.next_id + 1⟩, ⟨statusCode, ack_count, msg⟩)

/-- A client request to `POST /message`: the optional `text` field, the
optional `w` field, and the ACK events observed while waiting. -/
structure Request where
  text : Option String
  w : Option ℤ
  ackEvents : List Bool

/-- Master state after a sequence of `POST /message` requests starting
from `st`. -/
def runFrom : MasterState → List Request → MasterState
  | st, [] => st
  | st, r :: rs => runFrom (post_message st r.text r.w r.ackEvents).1 rs

/-- Master state after a sequence of `POST /message` requests from the
initial state: the reachable states of the Master. -/
def run (reqs : List Request) : MasterState := runFrom initState reqs

end Master

namespace Worker

/-- The retry delay of `SecondaryWorker._run` before capping: starts at
`RETRY_BASE_DELAY` and is updated by `delay = min(delay * 2, RETRY_MAX_DELAY)`
after each failed attempt. -/
def delaySeq (base max_delay : ℚ) : Nat → ℚ
  | 0 => base
  | k + 1 => min (delaySeq base max_delay k * 2) max_delay

/-- One HTTP attempt of the worker loop: the message it posted and, when
the attempt failed, the amount it then slept. -/
structure Attempt where
  msg : Msg
  sleepAfter : Option ℚ
  deriving DecidableEq

/-- The inner retry loop of `SecondaryWorker._run` for one queue item,
driven by the outcome of each HTTP attempt (`true` = HTTP 200).  `delay`
is the current backoff value, `k` the number of failures so far, and
`jitter k` the uniform draw added to the k-th backoff sleep.  Returns the
trace of attempts and whether the item was popped (ACKed); an exhausted
outcome list models an execution prefix in which the worker is still
retrying. -/
def runItemFrom (max_delay : ℚ) (msg : Msg) (jitter : Nat → ℚ) :
    ℚ → Nat → List Bool → List Attempt × Bool
  | _, _, [] => ([], false)
  | _, _, true :: _ => ([⟨msg, none⟩], true)
  | delay, k, false :: rest =>
    let sleep_for := min delay max_delay
    let r := runItemFrom max_delay msg jitter (min (delay * 2) max_delay) (k + 1) rest
    (⟨msg, some (sleep_for + jitter k)⟩ :: r.1, r.2)

/-- The worker loop for one queue item, starting from `RETRY_BASE_DELAY`. -/
def runItem (base max_delay : ℚ) (msg : Msg) (jitter : Nat → ℚ)
    (outcomes : List Bool) : List Attempt × Bool :=
  runItemFrom max_delay msg jitter base 0 outcomes

end Worker

/-! ### Helper lemmas about id-sorted logs -/

theorem strictById_of_sorted_nodup {l : List Msg} (hs : l.Sorted msgLe)
    (hn : (l.map Msg.id).Nodup) : StrictById l := by
  have hne : l.Pairwise fun a b => a.id ≠ b.id := List.pairwise_map.mp hn
  exact (hs.and hne).imp fun h => lt_of_le_of_ne h.1 h.2

theorem sorted_of_strictById {l : List Msg} (h : StrictById l) : l.Sorted msgLe :=
  h.imp fun h => le_of_lt h

theorem nodup_ids_of_strictById {l : List Msg} (h : StrictById l) :
    (l.map Msg.id).Nodup :=
  List.pairwise_map.mpr (h.imp fun h => Nat.ne_of_lt h)

theorem sortById_strict {l : List Msg} (hn : (l.map Msg.id).Nodup) :
    StrictById (sortById l) := by
  refine strictById_of_sorted_nodup (List.sorted_insertionSort msgLe l) ?_
  have hperm : List.Perm ((sortById l).map Msg.id) (l.map Msg.id) :=
    (List.perm_insertionSort msgLe l).map Msg.id
  exact hperm.nodup_iff.mpr hn

theorem sortById_of_sorted {l : List Msg} (h : l.Sorted msgLe) : sortById l = l :=
  h.insertionSort_eq

/-! ### Secondary: step and run lemmas -/

theorem replicate_fst_of_dup {st : List Msg} {m : Msg}
    (h : (st.any fun x => x.id == m.id) = true) :
    (Secondary.replicate st m).1 = st := by
  simp only [Secondary.replicate, h, if_true]

theorem replicate_fst_of_new {st : List Msg} {m : Msg}
    (h : (st.any fun x => x.id == m.id) = false) :
    (Secondary.replicate st m).1 = sortById (st ++ [m]) := by
  simp only [Secondary.replicate, h, Bool.false_eq_true, if_false]

theorem replicate_strict {st : List Msg} (m : Msg) (h : StrictById st) :
    StrictById (Secondary.replicate st m).1 := by
  rcases hd : st.any fun x => x.id == m.id with _ | _
  · rw [replicate_fst_of_new hd]
    apply sortById_strict
    rw [List.map_append, List.nodup_append]
    refine ⟨nodup_ids_of_strictById h, by simp, ?_⟩
    intro i hi
    simp only [List.map_cons, List.map_nil, List.mem_cons, List.not_mem_nil, or_false]
    rintro rfl
    rw [List.any_eq_false] at hd
    obtain ⟨x, hx, hxi⟩ := List.mem_map.mp hi
    exact hd x hx (by simp [hxi])
  · rw [replicate_fst_of_dup hd]
    exact h

theorem replicate_id_mem (st : List Msg) (m : Msg) (i : Nat) :
    (∃ x ∈ (Secondary.replicate st m).1, x.id = i) ↔
      (∃ x ∈ st, x.id = i) ∨ i = m.id := by
  rcases hd : st.any fun x => x.id == m.id with _ | _
  · rw [replicate_fst_of_new hd]
    constructor
    · rintro ⟨x, hx, rfl⟩
      have hx' : x ∈ st ++ [m] := (List.mem_insertionSort msgLe).mp hx
      rcases List.mem_append.mp hx' with h | h
      · exact Or.inl ⟨x, h, rfl⟩
      · simp only [List.mem_singleton] at h
        subst h
        exact Or.inr rfl
    · rintro (⟨x, hx, rfl⟩ | rfl)
      · exact ⟨x, (List.mem_insertionSort msgLe).mpr (List.mem_append.mpr (Or.inl hx)), rfl⟩
      · exact ⟨m, (List.mem_insertionSort msgLe).mpr (List.mem_append.mpr (Or.inr (by simp))), rfl⟩
  · rw [replicate_fst_of_dup hd]
    rw [List.any_eq_true] at hd
    obtain ⟨y, hy, hyi⟩ := hd
    rw [beq_iff_eq] at hyi
    constructor
    · exact Or.inl
    · rintro (hin | rfl)
      · exact hin
      · exact ⟨y, hy, hyi⟩

theorem secondary_runFrom_strict (inputs : List Msg) :
    ∀ st, StrictById st → StrictById (Secondary.runFrom st inputs) := by
  induction inputs with
  | nil => intro st h; exact h
  | cons m ms ih =>
    intro st h
    exact ih _ (replicate_strict m h)

theorem secondary_runFrom_id_mem (inputs : List Msg) :
    ∀ (st : List Msg) (i : Nat),
      (∃ x ∈ Secondary.runFrom st inputs, x.id = i) ↔
        (∃ x ∈ st, x.id = i) ∨ (∃ x ∈ inputs, x.id = i) := by
  induction inputs with
  | nil => simp [Secondary.runFrom]
  | cons m ms ih =>
    intro st i
    show (∃ x ∈ Secondary.runFrom (Secondary.replicate st m).1 ms, x.id = i) ↔ _
    rw [ih, replicate_id_mem]
    simp only [List.mem_cons]
    constructor
    · rintro (⟨⟨x, hx, rfl⟩ | rfl⟩ | ⟨x, hx, rfl⟩)
      · exact Or.inl ⟨x, hx, rfl⟩
      · exact Or.inr ⟨m, Or.inl rfl, rfl⟩
      · exact Or.inr ⟨x, Or.inr hx, rfl⟩
    · rintro (⟨x, hx, rfl⟩ | ⟨x, hx | hx, rfl⟩)
      · exact Or.inl (Or.inl ⟨x, hx, rfl⟩)
      · subst hx; exact Or.inl (Or.inr rfl)
      · exact Or.inr ⟨x, hx, rfl⟩

/-! ### Master: ACK counting, write concern, and log invariant -/

theorem countAcks_le (ev : List Bool) :
    ∀ required, Master.countAcks required ev ≤ required := by
  induction ev with
  | nil => intro required; cases required <;> simp [Master.countAcks]
  | cons ack rest ih =>
    intro required
    cases required with
    | zero => simp [Master.countAcks]
    | succ r =>
      simp only [Master.countAcks]
      split
      · have := ih r; omega
      · exact ih (r + 1)

theorem total_replicas_eq : Master.total_replicas = 3 := rfl

theorem effective_w_pos (requested_w : Option ℤ) :
    1 ≤ Master.effective_w requested_w := by
  cases requested_w with
  | none => simp [Master.effective_w, total_replicas_eq]
  | some r => exact le_max_left 1 _

theorem effective_w_le (requested_w : Option ℤ) :
    Master.effective_w requested_w ≤ Master.total_replicas := by
  cases requested_w with
  | none => exact le_refl _
  | some r =>
    simp only [Master.effective_w]
    rw [total_replicas_eq]
    exact max_le (by norm_num) (min_le_right r 3)

theorem post_message_not_dup {st : Master.MasterState}
    (hmem : ∀ m ∈ st.messages, m.id < st.next_id) :
    (st.messages.any fun m => m.id == (⟨st.next_id, (none : Option String)⟩ : Msg).id) = false := by
  rw [List.any_eq_false]
  intro m hm
  simp only [beq_iff_eq]
  exact Nat.ne_of_lt (hmem m hm)

theorem post_message_step (st : Master.MasterState)
    (h1 : 1 ≤ st.next_id)
    (h2 : st.messages.map Msg.id = List.range' 1 (st.next_id - 1))
    (text : Option String) (requested_w : Option ℤ) (ev : List Bool) :
    (Master.post_message st text requested_w ev).1.messages =
      st.messages ++ [⟨st.next_id, text⟩] ∧
    (Master.post_message st text requested_w ev).1.next_id = st.next_id + 1 := by
  have hmem : ∀ m ∈ st.messages, m.id < st.next_id := by
    intro m hm
    have hmm : m.id ∈ st.messages.map Msg.id := List.mem_map_of_mem Msg.id hm
    rw [h2] at hmm
    have := List.mem_range'_1.mp hmm
    omega
  have hdup : (st.messages.any fun m => m.id == st.next_id) = false := by
    rw [List.any_eq_false]
    intro m hm
    simp only [beq_iff_eq]
    exact Nat.ne_of_lt (hmem m hm)
  have hsorted : (st.messages ++ [(⟨st.next_id, text⟩ : Msg)]).Pairwise msgLe := by
    rw [List.pairwise_append]
    refine ⟨?_, by simp, ?_⟩
    · have hpl : (st.messages.map Msg.id).Pairwise (· < ·) := by
        rw [h2]; exact List.pairwise_lt_range' 1 _
      exact (List.pairwise_map.mp hpl).imp fun h => le_of_lt h
    · intro a ha b hb
      simp only [List.mem_singleton] at hb
      subst hb
      exact le_of_lt (hmem a ha)
  constructor
  · show (if st.messages.any fun m => m.id == st.next_id then st.messages
      else sortById (st.messages ++ [⟨st.next_id, text⟩])) = _
    rw [hdup]
    simp only [Bool.false_eq_true, if_false]
    exact sortById_of_sorted hsorted
  · rfl

theorem master_runFrom_inv (reqs : List Master.Request) :
    ∀ st : Master.MasterState, 1 ≤ st.next_id →
      st.messages.map Msg.id = List.range' 1 (st.next_id - 1) →
      1 ≤ (Master.runFrom st reqs).next_id ∧
        (Master.runFrom st reqs).messages.map Msg.id =
          List.range' 1 ((Master.runFrom st reqs).next_id - 1) := by
  induction reqs with
  | nil => intro st h1 h2; exact ⟨h1, h2⟩
  | cons r rs ih =>
    intro st h1 h2
    have step := post_message_step st h1 h2 r.text r.w r.ackEvents
    show 1 ≤ (Master.runFrom (Master.post_message st r.text r.w r.ackEvents).1 rs).next_id ∧ _
    apply ih
    · rw [step.2]; omega
    · rw [step.1, step.2, List.map_append]
      rw [h2]
      have he : st.next_id + 1 - 1 = (st.next_id - 1) + 1 := by omega
      rw [he, List.range'_1_concat]
      have he2 : 1 + (st.next_id - 1) = st.next_id := by omega
      rw [he2]
      rfl

theorem master_run_inv (reqs : List Master.Request) :
    1 ≤ (Master.run reqs).next_id ∧
      (Master.run reqs).messages.map Msg.id =
        List.range' 1 ((Master.run reqs).next_id - 1) :=
  master_runFrom_inv reqs Master.initState (by simp [Master.initState])
    (by simp [Master.initState])

/-! ### Worker: closed form of the retry loop -/

theorem worker_runItemFrom_eq (max_delay : ℚ) (msg : Msg) (jitter : Nat → ℚ)
    (os : List Bool) :
    ∀ (k : Nat) (base : ℚ),
      Worker.runItemFrom max_delay msg jitter (Worker.delaySeq base max_delay k) k os =
        (((List.range (os.takeWhile not).length).map fun j =>
            (⟨msg, some (min (Worker.delaySeq base max_delay (k + j)) max_delay +
              jitter (k + j))⟩ : Worker.Attempt)) ++
          (if os.contains true then [⟨msg, none⟩] else []),
          os.contains true) := by
  induction os with
  | nil =>
    intro k base
    simp [Worker.runItemFrom]
  | cons o rest ih =>
    intro k base
    cases o with
    | true =>
      simp [Worker.runItemFrom, List.takeWhile_cons]
    | false =>
      have hD : min (Worker.delaySeq base max_delay k * 2) max_delay =
          Worker.delaySeq base max_delay (k + 1) := rfl
      simp only [Worker.runItemFrom, hD, ih (k + 1) base]
      rw [List.takeWhile_cons]
      simp only [Bool.not_false, if_true, List.length_cons, List.contains_cons,
        Bool.true_beq, Bool.false_or]
      rw [List.range_succ_eq_map, List.map_cons, List.map_map]
      refine Prod.ext ?_ rfl
      simp only [Nat.add_zero, List.cons_append]
      congr 1
      congr 1
      apply List.map_congr_left
      intro j _
      simp only [Function.comp]
      have hkj : k + 1 + j = k + (j + 1) := by omega
      rw [hkj]

/-! ### Claim theorems -/

/-- C1 (counterexample): a single `POST /replicate` carrying id 2 on a fresh
Secondary makes id 2 visible in `GET /messages` although no message with
id 1 was ever delivered, and the set of ids in the log is `[2]`, which is
not a contiguous range starting at 1.  The source handler has no
`next_expected_id` or reorder buffer: it stores whatever ids it receives. -/
theorem secondary_contiguity_counterexample :
    (Secondary.run [⟨2, some "b"⟩]).map Msg.id = [2] ∧
    (∃ m ∈ Secondary.get_messages (Secondary.run [⟨2, some "b"⟩]), m.id = 2) ∧
    (∀ m ∈ Secondary.get_messages (Secondary.run [⟨2, some "b"⟩]), m.id ≠ 1) ∧
    (Secondary.run [⟨2, some "b"⟩]).map Msg.id ≠
      List.range' 1 ((Secondary.run [⟨2, some "b"⟩]).map Msg.id).length := by
  decide

/-- C1 (amended): on a Secondary, a message with id `i` is visible after a
sequence of `POST /replicate` calls exactly when some call in the sequence
carried id `i`; delivery is not gated on smaller ids, and the stored ids
are the set of ids received, not necessarily a contiguous range. -/
theorem secondary_visible_iff_received (inputs : List Msg) (i : Nat) :
    (∃ m ∈ Secondary.run inputs, m.id = i) ↔ ∃ m ∈ inputs, m.id = i := by
  have h := secondary_runFrom_id_mem inputs [] i
  simpa [Secondary.run] using h

/-- C2 (counterexample): with `ERROR_RATE = 1` and a uniform draw of `0`
(which falls below the rate) the spec prescribes HTTP 500, but the source
`/replicate` handler contains no fault-injection code and returns HTTP 200. -/
theorem replicate_error_rate_counterexample :
    (0 : ℚ) < 1 ∧ (0 : ℚ) < 1 ∧
    Secondary.replicateSpecStatus 1 0 = 500 ∧
    (Secondary.replicate [] ⟨1, some "a"⟩).2.statusCode = 200 ∧
    (Secondary.replicate [] ⟨1, some "a"⟩).2.statusCode ≠
      Secondary.replicateSpecStatus 1 0 := by
  have hspec : Secondary.replicateSpecStatus 1 0 = 500 := by
    simp only [Secondary.replicateSpecStatus]
    rw [if_pos]
    exact ⟨by norm_num, by norm_num⟩
  refine ⟨by norm_num, by norm_num, hspec, rfl, ?_⟩
  rw [hspec]
  decide

/-- C2 (amended): every `POST /replicate` call on a Secondary returns
HTTP 200 with body `{status: "replicated", msg}`, regardless of state;
the handler has no `ERROR_RATE` fault injection. -/
theorem replicate_always_200 (messages : List Msg) (msg : Msg) :
    (Secondary.replicate messages msg).2.statusCode = 200 ∧
    (Secondary.replicate messages msg).2.body_status = "replicated" ∧
    (Secondary.replicate messages msg).2.msg = msg :=
  ⟨rfl, rfl, rfl⟩

/-- Projection of the ACK count computed by `post_message`. -/
theorem post_message_acks_eq (st : Master.MasterState) (text : Option String)
    (requested_w : Option ℤ) (ev : List Bool) :
    (Master.post_message st text requested_w ev).2.acks =
      (if 1 < (Master.effective_w requested_w).toNat then
        1 + Master.countAcks ((Master.effective_w requested_w).toNat - 1) ev
      else 1) := rfl

/-- Projection of the HTTP status computed by `post_message`. -/
theorem post_message_status_eq (st : Master.MasterState) (text : Option String)
    (requested_w : Option ℤ) (ev : List Bool) :
    (Master.post_message st text requested_w ev).2.statusCode =
      (if (Master.effective_w requested_w).toNat ≤
          (Master.post_message st text requested_w ev).2.acks then 200
      else 202) := rfl

/-- C3: every `POST /message` response satisfies `1 ≤ acks ≤ N` with
`N = len(SECONDARIES) + 1`, the status is 200 exactly when
`acks ≥ w` (the effective write concern), and 202 exactly when the wait
ended with `acks < w`. -/
theorem post_message_ack_bounds (st : Master.MasterState) (text : Option String)
    (requested_w : Option ℤ) (ev : List Bool) :
    1 ≤ (Master.post_message st text requested_w ev).2.acks ∧
    ((Master.post_message st text requested_w ev).2.acks : ℤ) ≤
      Master.total_replicas ∧
    ((Master.post_message st text requested_w ev).2.statusCode = 200 ↔
      Master.effective_w requested_w ≤
        ((Master.post_message st text requested_w ev).2.acks : ℤ)) ∧
    ((Master.post_message st text requested_w ev).2.statusCode = 202 ↔
      ((Master.post_message st text requested_w ev).2.acks : ℤ) <
        Master.effective_w requested_w) := by
  have hw1 := effective_w_pos requested_w
  have hw3 := effective_w_le requested_w
  rw [total_replicas_eq] at hw3
  have hca := countAcks_le ev ((Master.effective_w requested_w).toNat - 1)
  rw [post_message_status_eq, post_message_acks_eq, total_replicas_eq]
  split_ifs <;> constructor <;> try constructor
  all_goals try constructor
  all_goals omega

/-- C4: when the request body has no `w`, the effective write concern is
`N = len(SECONDARIES) + 1`; otherwise it is `max(1, min(w, N))`; the
clamped value is always in `[1, N]`, and an out-of-range `w` is never
rejected: `post_message` always answers 200 or 202. -/
theorem effective_w_clamps :
    Master.effective_w none = Master.total_replicas ∧
    (∀ requested_w : ℤ, Master.effective_w (some requested_w) =
      max 1 (min requested_w Master.total_replicas)) ∧
    (∀ requested_w : Option ℤ,
      1 ≤ Master.effective_w requested_w ∧
      Master.effective_w requested_w ≤ Master.total_replicas) ∧
    ∀ (st : Master.MasterState) (text : Option String) (requested_w : Option ℤ)
      (ev : List Bool),
      (Master.post_message st text requested_w ev).2.statusCode = 200 ∨
      (Master.post_message st text requested_w ev).2.statusCode = 202 := by
  refine ⟨rfl, fun _ => rfl, fun rq => ⟨effective_w_pos rq, effective_w_le rq⟩, ?_⟩
  intro st text rq ev
  rw [post_message_status_eq]
  split_ifs <;> simp

/-- C5: a repeated `POST /replicate` with a message already delivered to
the Secondary leaves its state unchanged and returns HTTP 200. -/
theorem replicate_idempotent (messages : List Msg) (msg : Msg)
    (h : msg ∈ messages) :
    (Secondary.replicate messages msg).1 = messages ∧
    (Secondary.replicate messages msg).2.statusCode = 200 := by
  have hd : (messages.any fun m => m.id == msg.id) = true :=
    List.any_eq_true.mpr ⟨msg, h, by simp⟩
  exact ⟨replicate_fst_of_dup hd, rfl⟩

/-- C5 (witness): the idempotence theorem applied at a concrete state. -/
theorem replicate_idempotent_witness :
    (⟨1, some "a"⟩ : Msg) ∈ [(⟨1, some "a"⟩ : Msg)] ∧
    (Secondary.replicate [(⟨1, some "a"⟩ : Msg)] ⟨1, some "a"⟩).1 =
      [(⟨1, some "a"⟩ : Msg)] ∧
    (Secondary.replicate [(⟨1, some "a"⟩ : Msg)] ⟨1, some "a"⟩).2.statusCode = 200 :=
  ⟨by decide, replicate_idempotent [⟨1, some "a"⟩] ⟨1, some "a"⟩ (by decide)⟩

/-- Nonnegativity of the backoff delay sequence. -/
theorem delaySeq_nonneg (base max_delay : ℚ) (hb : 0 ≤ base) (hm : 0 ≤ max_delay) :
    ∀ k, 0 ≤ Worker.delaySeq base max_delay k := by
  intro k
  induction k with
  | zero => exact hb
  | succ n ih =>
    show 0 ≤ min (Worker.delaySeq base max_delay n * 2) max_delay
    exact le_min (by linarith) hm

/-- C6: the worker retry loop for a queue item attempts the same message
after every failed outcome, pops it exactly when some attempt returned
HTTP 200 (a message is never dropped), and before retry `k+1` sleeps
`min(delay_k, RETRY_MAX_DELAY) + jitter k` where `delay_k` starts at
`RETRY_BASE_DELAY` and doubles per attempt up to `RETRY_MAX_DELAY`; with
the jitter drawn from `[0, 0.5 * sleep]` each sleep lies between the base
sleep and 1.5 times it. -/
theorem worker_retries_until_ack (base max_delay : ℚ) (msg : Msg)
    (jitter : Nat → ℚ) (outcomes : List Bool)
    (hj : ∀ k, 0 ≤ jitter k ∧
      jitter k ≤ min (Worker.delaySeq base max_delay k) max_delay / 2) :
    Worker.runItem base max_delay msg jitter outcomes =
      (((List.range (outcomes.takeWhile not).length).map fun k =>
          (⟨msg, some (min (Worker.delaySeq base max_delay k) max_delay +
            jitter k)⟩ : Worker.Attempt)) ++
        (if outcomes.contains true then [⟨msg, none⟩] else []),
        outcomes.contains true) ∧
    (∀ a ∈ (Worker.runItem base max_delay msg jitter outcomes).1, a.msg = msg) ∧
    ∀ a ∈ (Worker.runItem base max_delay msg jitter outcomes).1, ∀ s,
      a.sleepAfter = some s →
      ∃ k, min (Worker.delaySeq base max_delay k) max_delay ≤ s ∧
        s ≤ min (Worker.delaySeq base max_delay k) max_delay * (3 / 2) := by
  have hmain : Worker.runItem base max_delay msg jitter outcomes =
      (((List.range (outcomes.takeWhile not).length).map fun j =>
          (⟨msg, some (min (Worker.delaySeq base max_delay (0 + j)) max_delay +
            jitter (0 + j))⟩ : Worker.Attempt)) ++
        (if outcomes.contains true then [⟨msg, none⟩] else []),
        outcomes.contains true) :=
    worker_runItemFrom_eq max_delay msg jitter outcomes 0 base
  simp only [Nat.zero_add] at hmain
  refine ⟨hmain, ?_, ?_⟩
  · intro a ha
    rw [hmain] at ha
    rcases List.mem_append.mp ha with h | h
    · obtain ⟨j, _, rfl⟩ := List.mem_map.mp h
      rfl
    · rcases ht : outcomes.contains true with _ | _ <;> rw [ht] at h
      · simp at h
      · simp only [if_true, List.mem_singleton] at h
        subst h
        rfl
  · intro a ha s hs
    rw [hmain] at ha
    rcases List.mem_append.mp ha with h | h
    · obtain ⟨j, _, rfl⟩ := List.mem_map.mp h
      simp only [Option.some_inj] at hs
      refine ⟨j, ?_, ?_⟩
      · have := (hj j).1
        linarith [hs]
      · have := (hj j).2
        linarith [hs]
    · rcases ht : outcomes.contains true with _ | _ <;> rw [ht] at h
      · simp at h
      · simp only [if_true, List.mem_singleton] at h
        subst h
        simp at hs

/-- C6 (witness): the retry theorem applied with base delay 1, max delay 2,
zero jitter, and one failure followed by a success. -/
theorem worker_retries_until_ack_witness :
    Worker.runItem 1 2 ⟨1, none⟩ (fun _ => 0) [false, true] =
      ([⟨⟨1, none⟩, some (min (Worker.delaySeq 1 2 0) 2 + 0)⟩,
        ⟨⟨1, none⟩, none⟩], true) := by
  have hj : ∀ k, 0 ≤ (fun _ : Nat => (0 : ℚ)) k ∧
      (fun _ : Nat => (0 : ℚ)) k ≤ min (Worker.delaySeq 1 2 k) 2 / 2 := by
    intro k
    refine ⟨le_refl 0, ?_⟩
    have h0 := delaySeq_nonneg 1 2 (by norm_num) (by norm_num) k
    have hmin : (0 : ℚ) ≤ min (Worker.delaySeq 1 2 k) 2 := le_min h0 (by norm_num)
    linarith
  have h := (worker_retries_until_ack 1 2 ⟨1, none⟩ (fun _ => 0) [false, true] hj).1
  rw [h]
  rfl

/-- C7: in every reachable Master state, `next_id` is at least 1 and grows
by exactly one per `POST /message`; the stored ids are the dense range
`[1..next_id-1]` (hence unique and strictly increasing by 1 from 1), and
each request is assigned the id `next_id`. -/
theorem master_ids_dense (reqs : List Master.Request) :
    1 ≤ (Master.run reqs).next_id ∧
    (Master.run reqs).messages.map Msg.id =
      List.range' 1 ((Master.run reqs).next_id - 1) ∧
    ((Master.run reqs).messages.map Msg.id).Nodup ∧
    ∀ (text : Option String) (requested_w : Option ℤ) (ev : List Bool),
      (Master.post_message (Master.run reqs) text requested_w ev).2.msg.id =
        (Master.run reqs).next_id ∧
      (Master.post_message (Master.run reqs) text requested_w ev).1.next_id =
        (Master.run reqs).next_id + 1 := by
  obtain ⟨h1, h2⟩ := master_run_inv reqs
  refine ⟨h1, h2, ?_, ?_⟩
  · rw [h2]
    exact List.nodup_range' 1 _
  · intro text rq ev
    exact ⟨rfl, rfl⟩

/-- C8 (counterexample): a `POST /message` whose body is missing the `text`
field is not rejected with a 4xx: on the fresh Master it appends
`{id: 1, text: null}` to the log (the log changes) and answers 202. -/
theorem post_message_missing_text_counterexample :
    (Master.post_message Master.initState none none []).1.messages =
      [⟨1, none⟩] ∧
    (Master.post_message Master.initState none none []).1.messages ≠
      Master.initState.messages ∧
    (Master.post_message Master.initState none none []).2.statusCode = 202 ∧
    ¬(400 ≤ (Master.post_message Master.initState none none []).2.statusCode ∧
      (Master.post_message Master.initState none none []).2.statusCode < 500) := by
  decide

/-- C8 (amended): malformed JSON is rejected by the web framework before
the handler runs, but a body merely missing the `text` field is accepted:
the handler assigns the next id, appends `{id, text: null}` to the log,
and answers 200 or 202 like any other write. -/
theorem post_message_missing_text_accepted (reqs : List Master.Request)
    (requested_w : Option ℤ) (ev : List Bool) :
    (Master.post_message (Master.run reqs) none requested_w ev).1.messages =
      (Master.run reqs).messages ++ [⟨(Master.run reqs).next_id, none⟩] ∧
    (Master.post_message (Master.run reqs) none requested_w ev).2.msg =
      ⟨(Master.run reqs).next_id, none⟩ ∧
    ((Master.post_message (Master.run reqs) none requested_w ev).2.statusCode =
        200 ∨
      (Master.post_message (Master.run reqs) none requested_w ev).2.statusCode =
        202) := by
  obtain ⟨h1, h2⟩ := master_run_inv reqs
  obtain ⟨hs, _⟩ := post_message_step (Master.run reqs) h1 h2 none requested_w ev
  refine ⟨hs, rfl, ?_⟩
  rw [post_message_status_eq]
  split_ifs <;> simp

/-- C9: in every reachable Master state the freshly minted id `next_id` is
strictly greater than every stored id, the handler's duplicate check is
therefore always false, and every `POST /message` appends exactly one
message to the log. -/
theorem master_fresh_id_no_dup (reqs : List Master.Request) :
    (∀ m ∈ (Master.run reqs).messages, m.id < (Master.run reqs).next_id) ∧
    ((Master.run reqs).messages.any fun m =>
      m.id == (Master.run reqs).next_id) = false ∧
    ∀ (text : Option String) (requested_w : Option ℤ) (ev : List Bool),
      (Master.post_message (Master.run reqs) text requested_w ev).1.messages.length =
        (Master.run reqs).messages.length + 1 := by
  obtain ⟨h1, h2⟩ := master_run_inv reqs
  have hmem : ∀ m ∈ (Master.run reqs).messages,
      m.id < (Master.run reqs).next_id := by
    intro m hm
    have hmm : m.id ∈ (Master.run reqs).messages.map Msg.id :=
      List.mem_map_of_mem Msg.id hm
    rw [h2] at hmm
    have := List.mem_range'_1.mp hmm
    omega
  refine ⟨hmem, ?_, ?_⟩
  · rw [List.any_eq_false]
    intro m hm
    simp only [beq_iff_eq]
    exact Nat.ne_of_lt (hmem m hm)
  · intro text rq ev
    rw [(post_message_step (Master.run reqs) h1 h2 text rq ev).1]
    simp

/-- C9 (witness): the fresh-id theorem applied to the one-request run. -/
theorem master_fresh_id_no_dup_witness :
    ((Master.run [⟨some "a", none, []⟩]).messages.any fun m =>
      m.id == (Master.run [⟨some "a", none, []⟩]).next_id) = false :=
  (master_fresh_id_no_dup [⟨some "a", none, []⟩]).2.1

/-- C10: after every sequence of `POST /replicate` calls the Secondary log
is strictly increasing by id (so sorted, with no two messages sharing an
id), and `GET /messages` returns exactly this id-sorted list. -/
theorem secondary_log_sorted_nodup (inputs : List Msg) :
    StrictById (Secondary.run inputs) ∧
    ((Secondary.run inputs).map Msg.id).Nodup ∧
    Secondary.get_messages (Secondary.run inputs) = Secondary.run inputs := by
  have hst : StrictById (Secondary.run inputs) :=
    secondary_runFrom_strict inputs [] List.Pairwise.nil
  exact ⟨hst, nodup_ids_of_strictById hst,
    sortById_of_sorted (sorted_of_strictById hst)⟩
